import Mathlib

/-!
Verification of the KitOps artifact engine: a shallow embedding of the
filter grammar, the media-type grammar, the unpacker's parent-chain
recursion, its layer-to-Kitfile-entry alignment, the config unpack, the
tar extraction path guard, the chunked-upload retry loop and license
aggregation, with theorems settling the specified properties.

Strings manipulated character-by-character by the Go code are embedded as
`List Char` (written `Str`); Go's `strings.Split` with a one-character
separator is embedded as `splitOnChar`.
-/

namespace KitOps

/-- Character-list representation of a Go string. -/
abbrev Str := List Char

/-! ## Filter grammar (src/unnamed/part_000, package unpack) -/

/-- The valid filter types, from `validFilterTypes` in the source. -/
def validFilterTypes : List Str :=
  ["kitfile".toList, "model".toList, "datasets".toList, "code".toList,
   "prompts".toList, "docs".toList]

/-- Embedding of Go `strings.Split(s, sep)` for a one-character separator:
splitting the empty string yields `[[]]`, and each occurrence of the
separator starts a new field. -/
def splitOnChar (c : Char) : Str → List Str
  | [] => [[]]
  | x :: xs =>
    match splitOnChar c xs with
    | [] => [[]]
    | h :: t => if x = c then [] :: h :: t else (x :: h) :: t

/-- `FilterConf` from the source: selected base types and name/path filters. -/
structure FilterConf where
  baseTypes : List Str
  filters : List Str
deriving DecidableEq, Repr

/-- `FilterConf.matchesBaseType` from the source. -/
def FilterConf.matchesBaseType (fc : FilterConf) (baseType : Str) : Bool :=
  fc.baseTypes.contains baseType

/-- `FilterConf.matchesField` from the source: an empty filter list matches
every field. -/
def FilterConf.matchesField (fc : FilterConf) (field : Str) : Bool :=
  if fc.filters.isEmpty then true else fc.filters.contains field

/-- `FilterConf.matches` from the source. -/
def FilterConf.matchesEntry (fc : FilterConf) (baseType field : Str) : Bool :=
  fc.matchesBaseType baseType && fc.matchesField field

/-- `ParseFilter` from the source: split on `:` (more than two pieces is an
error), every comma-separated type must be valid, and the optional second
piece is split on `,` into name filters. -/
def ParseFilter (filter : Str) : Option FilterConf :=
  let typesAndIds := splitOnChar ':' filter
  if typesAndIds.length > 2 then
    none
  else
    let types := splitOnChar ',' (typesAndIds.headD [])
    if types.all (fun t => validFilterTypes.contains t) then
      some { baseTypes := types,
             filters :=
               if typesAndIds.length = 1 then []
               else splitOnChar ',' (typesAndIds.getD 1 []) }
    else
      none

theorem splitOnChar_ne_nil (c : Char) (s : Str) : splitOnChar c s ≠ [] := by
  cases s with
  | nil => simp [splitOnChar]
  | cons x xs =>
    simp only [splitOnChar]
    rcases hs : splitOnChar c xs with _ | ⟨h, t⟩
    · simp [hs]
    · simp only [hs]
      by_cases hx : x = c <;> simp [hx]

theorem length_splitOnChar (c : Char) (s : Str) :
    (splitOnChar c s).length = s.count c + 1 := by
  induction s with
  | nil => simp [splitOnChar]
  | cons x xs ih =>
    simp only [splitOnChar]
    cases h : splitOnChar c xs with
    | nil => exact absurd h (splitOnChar_ne_nil c xs)
    | cons hd tl =>
      rw [h] at ih
      by_cases hx : x = c
      · simp [hx, List.count_cons, ih]
      · simp only [if_neg hx, List.length_cons, List.count_cons]
        simp only [List.length_cons] at ih
        simp [ih, hx]

/-- C4: `ParseFilter` errors exactly when the input has more than one `:`
separator or some comma-separated type before the `:` is not one of
kitfile, model, datasets, code, prompts, docs; and whenever the parsed
filter's name list is empty, `matchesField` accepts every field. -/
theorem parseFilter_characterization (s : Str) :
    (ParseFilter s = none ↔
      1 < s.count ':' ∨
        ∃ t ∈ splitOnChar ',' ((splitOnChar ':' s).headD []), t ∉ validFilterTypes)
    ∧ (∀ fc, ParseFilter s = some fc → fc.filters = [] →
        ∀ f, fc.matchesField f = true) := by
  constructor
  · have hlen : ((splitOnChar ':' s).length > 2) ↔ 1 < s.count ':' := by
      rw [length_splitOnChar]; omega
    simp only [ParseFilter]
    by_cases hc : (splitOnChar ':' s).length > 2
    · simp only [if_pos hc]
      simp [hlen.mp hc]
    · simp only [if_neg hc]
      have hc2 : ¬ 1 < s.count ':' := fun h => hc (hlen.mpr h)
      by_cases hall :
          ((splitOnChar ',' ((splitOnChar ':' s).headD [])).all
            (fun t => validFilterTypes.contains t)) = true
      · simp only [if_pos hall]
        simp only [List.all_eq_true, List.elem_iff, decide_eq_true_eq] at hall
        constructor
        · intro h; exact Option.noConfusion h
        · rintro (h | ⟨t, ht, hnot⟩)
          · exact absurd h hc2
          · exact absurd (hall t ht) hnot
      · simp only [if_neg hall]
        simp only [List.all_eq_true, List.elem_iff, decide_eq_true_eq,
          not_forall] at hall
        obtain ⟨t, ht, hnot⟩ := hall
        exact iff_of_true (by trivial) (Or.inr ⟨t, ht, hnot⟩)
  · intro fc _ hempty f
    simp [FilterConf.matchesField, hempty]

/-- C4 witness: on the filter string `model`, parsing succeeds with an empty
name list, and `matchesField` accepts the field `x`. -/
theorem parseFilter_characterization_witness :
    FilterConf.matchesField { baseTypes := ["model".toList], filters := [] }
      "x".toList = true :=
  (parseFilter_characterization "model".toList).2
    { baseTypes := ["model".toList], filters := [] } rfl rfl "x".toList

/-! ## Media-type grammar (src/pkg/lib/constants/mediatype/mediatype.go) -/

/-- `BaseType` from the source; the first constructor is the Go zero value
`UnknownBaseType`. -/
inductive BaseType
  | unknown
  | config
  | model
  | modelpart
  | dataset
  | code
  | docs
deriving DecidableEq, Repr

/-- `CompressionType` from the source; `noneComp` is `NoneCompression`. -/
inductive CompressionType
  | unknown
  | noneComp
  | gzip
  | gzipFastest
  | zstd
deriving DecidableEq, Repr

/-- `Format` from the source. -/
inductive Format
  | unknown
  | tar
  | raw
deriving DecidableEq, Repr

/-- A parsed media type: the sum of the two dialect structs
`kitopsMediaType` and `modelpackMediatype`. -/
inductive MediaTypeV
  | kit (base : BaseType) (comp : CompressionType)
  | modelpack (base : BaseType) (comp : CompressionType) (fmt : Format)
deriving DecidableEq, Repr

/-- The regexp character class `\w` (ASCII word character). -/
def isWordChar (c : Char) : Bool :=
  c.isAlpha || c.isDigit || c = '_'

/-- Strip a literal prefix, as matching the leading literal part of the
regexps does. -/
def stripPre (pre s : Str) : Option Str :=
  if pre.isPrefixOf s then some (s.drop pre.length) else none

/-- `ParseCompression` from the source: the empty submatch and `none` map to
no compression. -/
def ParseCompression (c : Str) : Option CompressionType :=
  if c = [] ∨ c = "none".toList then some .noneComp
  else if c = "gzip".toList then some .gzip
  else if c = "gzip-fastest".toList then some .gzipFastest
  else if c = "zstd".toList then some .zstd
  else none

/-- `ParseFormat` from the source. -/
def ParseFormat (f : Str) : Option Format :=
  if f = "raw".toList then some .raw
  else if f = "tar".toList then some .tar
  else none

/-- `ParseModelPackBaseType` from the source: the accepted spellings are
`config`, `model`, `modelpart`, `dataset`, `code`, `docs`. -/
def ParseModelPackBaseType (s : Str) : Option BaseType :=
  if s = "config".toList then some .config
  else if s = "model".toList then some .model
  else if s = "modelpart".toList then some .modelpart
  else if s = "dataset".toList then some .dataset
  else if s = "code".toList then some .code
  else if s = "docs".toList then some .docs
  else none

/-- Modelled from the spec: `ParseKitBaseType` is called by `ParseMediaType`
but its definition is not among the provided repository files. The spec's
base-type set is {Config, Model, ModelPart, Dataset, Code, Docs} and the
ModelPack renames (weight, weight.config, doc) apply only to the ModelPack
dialect, so the Kit dialect uses the plain spellings. -/
def ParseKitBaseType (s : Str) : Option BaseType :=
  if s = "config".toList then some .config
  else if s = "model".toList then some .model
  else if s = "modelpart".toList then some .modelpart
  else if s = "dataset".toList then some .dataset
  else if s = "code".toList then some .code
  else if s = "docs".toList then some .docs
  else none

/-- Matching of `^application/vnd\.kitops\.modelkit\.(\w+)\.v1\.tar(?:\+(\w+))?$`
returning the two capture groups (the second is empty when absent). -/
def matchKitops (s : Str) : Option (Str × Str) := do
  let r ← stripPre "application/vnd.kitops.modelkit.".toList s
  let base := r.takeWhile isWordChar
  if base = [] then none
  else
    let rest ← stripPre ".v1.tar".toList (r.drop base.length)
    match rest with
    | [] => some (base, [])
    | '+' :: comp =>
      if comp ≠ [] ∧ comp.all isWordChar then some (base, comp) else none
    | _ => none

/-- Matching of the trailing `(\w+)(?:\+?(\w+))?$` of the ModelPack regexp:
the format capture, then an optional `+`-separated compression capture. -/
def matchFormatComp (r : Str) : Option (Str × Str) :=
  let f := r.takeWhile isWordChar
  if f = [] then none
  else
    match r.drop f.length with
    | [] => some (f, [])
    | '+' :: cs => if cs ≠ [] ∧ cs.all isWordChar then some (f, cs) else none
    | _ => none

/-- Matching of `^application/vnd\.cncf\.model\.(\w+(?:\.\w+)?)\.v1\.(\w+)(?:\+?(\w+))?$`
returning (base, format, compression). The greedy base capture prefers the
dotted form `\w+\.\w+` and falls back to the single word. -/
def matchModelPack (s : Str) : Option (Str × Str × Str) := do
  let r ← stripPre "application/vnd.cncf.model.".toList s
  let w1 := r.takeWhile isWordChar
  if w1 = [] then none
  else
    let r1 := r.drop w1.length
    let dotted : Option (Str × Str × Str) :=
      match r1 with
      | '.' :: r2 =>
        let w2 := r2.takeWhile isWordChar
        if w2 = [] then none
        else do
          let r3 ← stripPre ".v1.".toList (r2.drop w2.length)
          let (f, c) ← matchFormatComp r3
          some (w1 ++ '.' :: w2, f, c)
      | _ => none
    match dotted with
    | some x => some x
    | none => do
      let r3 ← stripPre ".v1.".toList r1
      let (f, c) ← matchFormatComp r3
      some (w1, f, c)

/-- `ParseMediaType` from the source: the two config constants are matched
exactly, then the Kit regexp, then the ModelPack regexp; submatches go
through the base-type, compression and format sub-parsers. -/
def ParseMediaType (s : Str) : Option MediaTypeV :=
  if s = "application/vnd.kitops.modelkit.config.v1+json".toList then
    some (.kit .config .unknown)
  else if s = "application/vnd.cncf.model.config.v1+json".toList then
    some (.modelpack .config .unknown .unknown)
  else
    match matchKitops s with
    | some (base, comp) => do
      let b ← ParseKitBaseType base
      let c ← ParseCompression comp
      some (.kit b c)
    | none =>
      match matchModelPack s with
      | some (base, fmt, comp) => do
        let b ← ParseModelPackBaseType base
        let c ← ParseCompression comp
        let f ← ParseFormat fmt
        some (.modelpack b c f)
      | none => none

/-- `modelpackMediatype.baseTypeString` from the source: the ModelPack
spellings rename model to `weight`, modelpart to `weight.config` and docs
to `doc`. -/
def mpBaseTypeString (b : BaseType) : String :=
  match b with
  | .config => "config"
  | .model => "weight"
  | .modelpart => "weight.config"
  | .dataset => "dataset"
  | .code => "code"
  | .docs => "doc"
  | .unknown => "invalid mediatype"

/-- `modelpackMediatype.formatAndCompression` from the source. -/
def mpFormatAndCompression (fmt : Format) (comp : CompressionType) : String :=
  match fmt with
  | .raw => "raw"
  | .tar =>
    match comp with
    | .noneComp => "tar"
    | .gzip => "tar+gzip"
    | .gzipFastest => "tar+gzip"
    | .zstd => "tar+zstd"
    | .unknown => "invalid mediatype"
  | .unknown => "invalid mediatype"

/-- `modelpackMediatype.String` from the source. -/
def modelpackString (b : BaseType) (c : CompressionType) (f : Format) : String :=
  if b = .config then "application/vnd.cncf.model.config.v1+json"
  else "application/vnd.cncf.model." ++ mpBaseTypeString b ++ ".v1."
    ++ mpFormatAndCompression f c

/-- C1: the media-type round-trip law fails on the ModelPack dialect.
The valid string `application/vnd.cncf.model.model.v1.raw` parses (base
`model`), but the `String()` of the parsed value spells the base `weight`,
so it differs from the input, and the emitted string does not even
re-parse. This theorem evaluates the embedded source at the failing
input. -/
theorem modelpack_roundtrip_failure :
    ParseMediaType "application/vnd.cncf.model.model.v1.raw".toList =
      some (.modelpack .model .noneComp .raw)
    ∧ modelpackString .model .noneComp .raw =
      "application/vnd.cncf.model.weight.v1.raw"
    ∧ "application/vnd.cncf.model.weight.v1.raw" ≠
      "application/vnd.cncf.model.model.v1.raw"
    ∧ ParseMediaType "application/vnd.cncf.model.weight.v1.raw".toList = none := by
  refine ⟨by decide, rfl, by decide, by decide⟩

/-! ## Parent-chain recursion (src/unnamed/part_001 and
src/pkg/lib/constants/consts.go) -/

/-- `MaxModelRefChain` from the source: the maximum number of parent
modelkits a modelkit may have. -/
def MaxModelRefChain : Nat := 10

/-- `getIndex` from the source: index of the first occurrence of `s`, or
-1 when absent. -/
def getIndex (list : List Str) (s : Str) : Int :=
  match list with
  | [] => -1
  | x :: xs =>
    if s = x then 0
    else
      let r := getIndex xs s
      if r = -1 then -1 else r + 1

/-- Error kinds surfaced by the parent-chain walk. -/
inductive UnpackErr
  | depthExceeded
  | resolveFailed
  | cycleDetected
deriving DecidableEq, Repr

/-- Embedding of the parent-reference chain skeleton of `unpackRecursive`:
the store abstracts resolution of a reference to its Kitfile's optional
parent reference (`none` = resolution fails, `some none` = no parent,
`some (some p)` = `model.path` is the reference `p`). The depth guard
`len(visitedRefs) > MaxModelRefChain` is checked on entry, and the
`unpackParent` cycle check and append of the parent onto the visited path
happen before the recursive call, exactly as in the source. -/
def unpackRecursiveChain (store : Str → Option (Option Str)) (ref : Str)
    (visited : List Str) : Except UnpackErr Unit :=
  if _h : visited.length > MaxModelRefChain then .error .depthExceeded
  else
    match store ref with
    | none => .error .resolveFailed
    | some none => .ok ()
    | some (some p) =>
      if getIndex visited p ≠ -1 then .error .cycleDetected
      else unpackRecursiveChain store p (visited ++ [p])
termination_by MaxModelRefChain + 1 - visited.length
decreasing_by simp only [List.length_append, List.length_cons, List.length_nil]; omega

/-- `unpackParent` from the source, restricted to the chain skeleton: fail
with a cycle error when the reference is already on the active visited
path, otherwise recurse with the reference pushed onto the path. -/
def unpackParentChain (store : Str → Option (Option Str)) (ref : Str)
    (visited : List Str) : Except UnpackErr Unit :=
  if getIndex visited ref ≠ -1 then .error .cycleDetected
  else unpackRecursiveChain store ref (visited ++ [ref])

theorem getIndex_ge_neg_one (l : List Str) (s : Str) : -1 ≤ getIndex l s := by
  induction l with
  | nil => simp [getIndex]
  | cons x xs ih =>
    simp only [getIndex]
    by_cases hx : s = x
    · simp [hx]
    · simp only [if_neg hx]
      by_cases hr : getIndex xs s = -1
      · simp [hr]
      · simp only [if_neg hr]
        omega

theorem getIndex_eq_neg_one_iff (l : List Str) (s : Str) :
    getIndex l s = -1 ↔ s ∉ l := by
  induction l with
  | nil => simp [getIndex]
  | cons x xs ih =>
    simp only [getIndex, List.mem_cons]
    by_cases hx : s = x
    · simp [hx]
    · simp only [if_neg hx]
      by_cases hr : getIndex xs s = -1
      · simp [hr, hx, ih.mp hr]
      · have hmem : s ∈ xs := by
          by_contra hm
          exact hr (ih.mpr hm)
        have hge := getIndex_ge_neg_one xs s
        simp only [if_neg hr]
        constructor
        · intro habs; omega
        · intro hnot
          exact absurd hmem (not_or.mp hnot).2

/-- C2: whenever `unpackParent` is handed a reference that is already on
the active visited path, it fails with a cycle error; the result is the
same for every store, so no further parent resolution is performed and no
recursion into that parent happens. -/
theorem unpackParent_cycle_detected (ref : Str) (visited : List Str)
    (h : ref ∈ visited) :
    ∀ store, unpackParentChain store ref visited = .error .cycleDetected := by
  intro store
  have hne : getIndex visited ref ≠ -1 :=
    fun habs => ((getIndex_eq_neg_one_iff visited ref).mp habs) h
  simp [unpackParentChain, hne]

/-- C2 witness: in the chain a→b→a, the second encounter of `b` with
visited path [b, a] fails with the cycle error, for a concrete store. -/
theorem unpackParent_cycle_detected_witness :
    "b".toList ∈ ["b".toList, "a".toList] ∧
      unpackParentChain (fun _ => none) "b".toList ["b".toList, "a".toList] =
        .error .cycleDetected :=
  ⟨by decide,
    unpackParent_cycle_detected "b".toList ["b".toList, "a".toList] (by decide)
      (fun _ => none)⟩

/-- A store resolves the list `l` as a linear parent chain: each element's
Kitfile references the next element as its parent, and the last element
has no parent. -/
def chainOf (store : Str → Option (Option Str)) : List Str → Bool
  | [] => true
  | [x] => decide (store x = some none)
  | x :: y :: xs => decide (store x = some (some y)) && chainOf store (y :: xs)

/-- A concrete store that resolves exactly the references of `l`, linked
as a linear chain. -/
def chainStore : List Str → Str → Option (Option Str)
  | [], _ => none
  | [x], r => if r = x then some none else none
  | x :: y :: xs, r => if r = x then some (some y) else chainStore (y :: xs) r

theorem unpackChain_run (store : Str → Option (Option Str)) (rest : List Str) :
    ∀ (c : Str) (v : List Str), chainOf store (c :: rest) = true →
      (∀ x ∈ rest, x ∉ v) → (c :: rest).Nodup →
      unpackRecursiveChain store c v =
        if v.length + rest.length > MaxModelRefChain then .error .depthExceeded
        else .ok () := by
  induction rest with
  | nil =>
    intro c v hchain _ _
    simp only [chainOf, decide_eq_true_eq] at hchain
    unfold unpackRecursiveChain
    by_cases hv : v.length > MaxModelRefChain
    · simp [hv]
    · simp [hv, hchain]
  | cons p rest ih =>
    intro c v hchain hfresh hnodup
    simp only [chainOf, Bool.and_eq_true, decide_eq_true_eq] at hchain
    obtain ⟨hstep, hchain2⟩ := hchain
    unfold unpackRecursiveChain
    by_cases hv : v.length > MaxModelRefChain
    · simp only [dif_pos hv]
      rw [if_pos]
      simp only [List.length_cons]
      omega
    · simp only [dif_neg hv, hstep]
      have hpnotv : p ∉ v := hfresh p (by simp)
      rw [if_neg (by simp [getIndex_eq_neg_one_iff, hpnotv])]
      rw [ih p (v ++ [p]) hchain2 ?fresh ?nodup]
      · simp only [List.length_append, List.length_cons, List.length_nil]
        congr 1
        simp only [eq_iff_iff]
        omega
      case fresh =>
        intro x hx
        simp only [List.mem_append, List.mem_singleton, not_or]
        refine ⟨hfresh x (by simp [hx]), ?_⟩
        intro hxp
        subst hxp
        have := hnodup.of_cons
        rw [List.nodup_cons] at this
        exact this.1 hx
      case nodup => exact hnodup.of_cons

/-- C3: for a linear chain of distinct parent references, the unpack walk
fails with the depth-exceeded error exactly when the number of parent
references exceeds `MaxModelRefChain` (10), and a chain of at most 10
parent references is never rejected by the depth check. -/
theorem unpackChain_depth (store : Str → Option (Option Str)) (c : Str)
    (rest : List Str) (hchain : chainOf store (c :: rest) = true)
    (hnodup : (c :: rest).Nodup) :
    (unpackRecursiveChain store c [] = .error .depthExceeded ↔
      MaxModelRefChain < rest.length)
    ∧ (rest.length ≤ MaxModelRefChain →
        unpackRecursiveChain store c [] = .ok ()) := by
  have hrun := unpackChain_run store rest c [] hchain (by simp) hnodup
  simp only [List.length_nil, Nat.zero_add] at hrun
  by_cases hlen : MaxModelRefChain < rest.length
  · rw [hrun, if_pos hlen]
    exact ⟨by simp [hlen], fun h => absurd hlen (by omega)⟩
  · rw [hrun, if_neg hlen]
    exact ⟨by simp [hlen], fun _ => rfl⟩

/-- Head of a demonstration chain of twelve distinct references. -/
def chainDemoHead : Str := "a".toList

/-- The eleven parent references of the demonstration chain. -/
def chainDemoRest : List Str :=
  ["b".toList, "c".toList, "d".toList, "e".toList, "f".toList, "g".toList,
   "h".toList, "i".toList, "j".toList, "k".toList, "l".toList]

/-- C3 witness: a concrete chain of 11 parent references (12 references in
all) exceeds `MaxModelRefChain` and is rejected by the depth check. -/
theorem unpackChain_depth_witness :
    chainOf (chainStore (chainDemoHead :: chainDemoRest))
        (chainDemoHead :: chainDemoRest) = true ∧
      (chainDemoHead :: chainDemoRest).Nodup ∧
      ((unpackRecursiveChain (chainStore (chainDemoHead :: chainDemoRest))
          chainDemoHead [] = .error .depthExceeded ↔
        MaxModelRefChain < chainDemoRest.length) ∧
        (chainDemoRest.length ≤ MaxModelRefChain →
          unpackRecursiveChain (chainStore (chainDemoHead :: chainDemoRest))
            chainDemoHead [] = .ok ())) :=
  ⟨by decide, by decide,
    unpackChain_depth (chainStore (chainDemoHead :: chainDemoRest))
      chainDemoHead chainDemoRest (by decide) (by decide)⟩

/-! ## Config unpacking (src/unnamed/part_001, `unpackConfig`) -/

/-- What exists at the Kitfile's output path before unpacking: whether it
is a regular file, and its contents. -/
structure ExistingFile where
  isRegular : Bool
  contents : String
deriving DecidableEq, Repr

/-- Observable outcome of `unpackConfig`: success without a write, a write
of the canonical bytes, or an error. -/
inductive ConfigOutcome
  | noWrite
  | wrote
  | failed
deriving DecidableEq, Repr

/-- `unpackConfig` from the source: when a path exists it must be a regular
file; without `overwrite` the existing size and bytes are compared
(identical contents succeed without writing, anything else fails); in every
remaining case the canonical Kitfile bytes are written. -/
def unpackConfig (configBytes : String) (existing : Option ExistingFile)
    (overwrite : Bool) : ConfigOutcome :=
  match existing with
  | some fi =>
    if ¬ fi.isRegular then .failed
    else if ¬ overwrite then
      if fi.contents.length ≠ configBytes.length then .failed
      else if fi.contents = configBytes then .noWrite
      else .failed
    else .wrote
  | none => .wrote

/-- C6 counterexample: with `overwrite = true` and an existing byte-identical
regular file, `unpackConfig` writes the bytes rather than succeeding
without writing, refuting the claim's unconditional no-op clause. -/
theorem unpackConfig_identical_overwrite_writes :
    unpackConfig "k" (some { isRegular := true, contents := "k" }) true =
        .wrote
      ∧ unpackConfig "k" (some { isRegular := true, contents := "k" }) true ≠
        .noWrite := by
  exact ⟨rfl, by decide⟩

/-- C6 (amended): when `overwrite` is false, an existing regular file with
byte-identical contents is a no-op, and differing contents fail; an
existing non-regular path fails regardless of `overwrite`; otherwise
(`overwrite` true with an existing regular file, or no existing file) the
canonical bytes are written. -/
theorem unpackConfig_characterization (bytes : String)
    (ex : Option ExistingFile) (ow : Bool) :
    (∀ fi, ex = some fi → fi.isRegular = true → ow = false →
      fi.contents = bytes → unpackConfig bytes ex ow = .noWrite)
    ∧ (∀ fi, ex = some fi → fi.isRegular = true → ow = false →
      fi.contents ≠ bytes → unpackConfig bytes ex ow = .failed)
    ∧ (∀ fi, ex = some fi → fi.isRegular = false →
      unpackConfig bytes ex ow = .failed)
    ∧ (ex = none → unpackConfig bytes ex ow = .wrote)
    ∧ (∀ fi, ex = some fi → fi.isRegular = true → ow = true →
      unpackConfig bytes ex ow = .wrote) := by
  refine ⟨?_, ?_, ?_, ?_, ?_⟩
  · rintro fi rfl hreg rfl heq
    simp [unpackConfig, hreg, heq]
  · rintro fi rfl hreg rfl hne
    by_cases hlen : fi.contents.length = bytes.length
    · simp [unpackConfig, hreg, hlen, hne]
    · simp [unpackConfig, hreg, hlen]
  · rintro fi rfl hreg
    simp [unpackConfig, hreg]
  · rintro rfl
    simp [unpackConfig]
  · rintro fi rfl hreg rfl
    simp [unpackConfig, hreg]

/-- C6 witness: with `overwrite = false` and an identical existing regular
file, `unpackConfig` succeeds without writing. -/
theorem unpackConfig_characterization_witness :
    unpackConfig "k" (some { isRegular := true, contents := "k" }) false =
      .noWrite :=
  (unpackConfig_characterization "k"
      (some { isRegular := true, contents := "k" }) false).1
    { isRegular := true, contents := "k" } rfl rfl rfl rfl

/-! ## Chunked-upload retry loop
(src/pkg/lib/repo/remote/repository.go, `uploadBlobChunkWithRetry`) -/

/-- Outcome of one HTTP attempt: a transport error (`respErr != nil`) or a
response with a status code. -/
inductive RespOutcome
  | err
  | status (code : Nat)
deriving DecidableEq, Repr

/-- The loop's success test: no transport error and HTTP 202 Accepted. -/
def isAccepted : RespOutcome → Bool
  | .status c => c == 202
  | .err => false

/-- Observable events of the retry loop: issuing the PATCH request for an
attempt, and repositioning the content reader. -/
inductive UploadEvent
  | request (attempt : Nat)
  | seek (pos : Int)
deriving DecidableEq, Repr

/-- `uploadBlobChunkWithRetry` from the source: each iteration issues the
request; a 202 returns it; a failure on a non-seekable stream returns
immediately; otherwise the retry policy is consulted (a negative delay, or
a policy error, stops), the content is repositioned to `rangeStart` via
seek, and the loop retries with `attempt+1`. The abstract `client` maps the
attempt number to that attempt's outcome; the unbounded Go `for` loop is
embedded with fuel (`none` = fuel exhausted), and the back-off sleep and
context cancellation are not modelled. -/
def uploadChunkRetry (client : Nat → RespOutcome) (seekable : Bool)
    (policy : Nat → RespOutcome → Int) (rangeStart : Int) :
    Nat → Nat → Option RespOutcome × List UploadEvent
  | 0, _ => (none, [])
  | fuel + 1, attempt =>
    let resp := client attempt
    if isAccepted resp then (some resp, [.request attempt])
    else if ¬ seekable then (some resp, [.request attempt])
    else if policy attempt resp < 0 then (some resp, [.request attempt])
    else
      let next := uploadChunkRetry client seekable policy rangeStart fuel (attempt + 1)
      (next.1, .request attempt :: .seek rangeStart :: next.2)

/-- C8: on a failed chunk PATCH, a non-seekable content stream returns the
failure immediately after a single request with no seek and no retry;
on a seekable stream, when the retry policy grants a non-negative delay,
the content is repositioned via seek to the chunk's range start before the
retried request (every iteration's first event is its request). -/
theorem uploadChunkRetry_seek_discipline (client : Nat → RespOutcome)
    (policy : Nat → RespOutcome → Int) (rangeStart : Int) (fuel attempt : Nat)
    (hfail : isAccepted (client attempt) = false) :
    (uploadChunkRetry client false policy rangeStart (fuel + 1) attempt =
      (some (client attempt), [.request attempt]))
    ∧ (0 ≤ policy attempt (client attempt) →
        uploadChunkRetry client true policy rangeStart (fuel + 1) attempt =
          ((uploadChunkRetry client true policy rangeStart fuel (attempt + 1)).1,
            .request attempt :: .seek rangeStart ::
              (uploadChunkRetry client true policy rangeStart fuel (attempt + 1)).2))
    ∧ (∀ f a, (uploadChunkRetry client true policy rangeStart (f + 1) a).2.head? =
        some (.request a)) := by
  refine ⟨?_, ?_, ?_⟩
  · simp [uploadChunkRetry, hfail]
  · intro hpol
    have hneg : ¬ policy attempt (client attempt) < 0 := by omega
    simp [uploadChunkRetry, hfail, hneg]
  · intro f a
    simp only [uploadChunkRetry]
    by_cases h1 : isAccepted (client a) = true
    · simp [h1]
    · simp only [Bool.not_eq_true] at h1
      by_cases h2 : policy a (client a) < 0 <;> simp [h1, h2]

/-- C8 witness: a concrete always-500 server with a non-seekable stream
returns the failure after exactly one request and no seek. -/
theorem uploadChunkRetry_seek_discipline_witness :
    uploadChunkRetry (fun _ => .status 500) false (fun _ _ => 5) 7 2 0 =
      (some (.status 500), [.request 0]) :=
  (uploadChunkRetry_seek_discipline (fun _ => .status 500) (fun _ _ => 5) 7 1 0
      (by decide)).1

/-! ## Tar extraction path guard (src/unnamed/part_001, `extractTar`;
`filesystem.VerifySubpath` modelled from the spec) -/

/-- Tar entry types handled by `extractTar`: directories, regular files,
and everything else (rejected). -/
inductive TarType
  | dir
  | reg
  | other
deriving DecidableEq, Repr

/-- A tar entry: its header name as a list of path segments (a segment may
be `..`), and its type flag. -/
structure TarEntry where
  name : List String
  typeflag : TarType
deriving DecidableEq, Repr

/-- Modelled from the spec: lexical path cleaning as performed by
`filepath.Join`. One segment is applied to an absolute path (given as its
segment list): `..` moves to the parent (saturating at the filesystem
root), `.` and empty segments drop out. -/
def applySeg (p : List String) (s : String) : List String :=
  if s = ".." then p.dropLast
  else if s = "." ∨ s = "" then p
  else p ++ [s]

/-- `filepath.Join(root, name)` followed by cleaning: apply each segment of
the entry name to the extraction root. -/
def joinClean (root : List String) (name : List String) : List String :=
  name.foldl applySeg root

/-- Error kinds of `extractTar`: the illegal-path error from the
`VerifySubpath` guard, existing-path conflicts, and unrecognized tar entry
types. -/
inductive TarErr
  | illegalPath
  | conflict
  | badType
deriving DecidableEq, Repr

/-- Lookup in the modelled filesystem (an association list from paths to
entry kinds). -/
def fsLookup (fs : List (List String × TarType)) (p : List String) :
    Option TarType :=
  (fs.find? (fun e => e.1 == p)).map (·.2)

/-- Whether an `Except` is an error. -/
def exceptIsError {ε α : Type} : Except ε α → Bool
  | .error _ => true
  | .ok _ => false

/-- `extractTar` from the source, with `VerifySubpath` modelled from the
spec as lexical containment of the cleaned output path in the extraction
root. For each entry the output path is joined and verified before
anything is written; directories are created if absent (an existing
non-directory is an error); regular files honor `ignoreExisting` and
`overwrite`; other entry types are errors. The second component of the
result lists every path created or truncated, in order. -/
def extractTar (root : List String) (overwrite ignoreExisting : Bool) :
    List TarEntry → List (List String × TarType) →
    Except TarErr Unit × List (List String)
  | [], _ => (.ok (), [])
  | e :: rest, fs =>
    let outPath := joinClean root e.name
    if ¬ root.isPrefixOf outPath then (.error .illegalPath, [])
    else
      match e.typeflag with
      | .dir =>
        match fsLookup fs outPath with
        | some k =>
          if k ≠ .dir then (.error .conflict, [])
          else extractTar root overwrite ignoreExisting rest fs
        | none =>
          let r := extractTar root overwrite ignoreExisting rest
            ((outPath, .dir) :: fs)
          (r.1, outPath :: r.2)
      | .reg =>
        match fsLookup fs outPath with
        | some k =>
          if ignoreExisting then extractTar root overwrite ignoreExisting rest fs
          else if ¬ overwrite then (.error .conflict, [])
          else if k ≠ .reg then (.error .conflict, [])
          else
            let r := extractTar root overwrite ignoreExisting rest fs
            (r.1, outPath :: r.2)
        | none =>
          let r := extractTar root overwrite ignoreExisting rest
            ((outPath, .reg) :: fs)
          (r.1, outPath :: r.2)
      | .other => (.error .badType, [])

/-- Every write performed by `extractTar` lies inside the extraction root. -/
theorem extractTar_writes_inside (root : List String) (ov ig : Bool)
    (entries : List TarEntry) :
    ∀ fs, ((extractTar root ov ig entries fs).2.all
      (fun w => root.isPrefixOf w)) = true := by
  induction entries with
  | nil => intro fs; simp [extractTar]
  | cons e rest ih =>
    intro fs
    rcases e with ⟨nm, tf⟩
    by_cases hesc : root.isPrefixOf (joinClean root nm) = true
    · simp only [extractTar]
      rw [if_neg (show ¬¬root.isPrefixOf (joinClean root nm) = true from
        not_not_intro hesc)]
      cases tf with
      | dir =>
        cases hfs : fsLookup fs (joinClean root nm) with
        | none =>
          simp only [hfs, List.all_cons, Bool.and_eq_true]
          exact ⟨hesc, ih _⟩
        | some k =>
          simp only [hfs]
          by_cases hk : k = TarType.dir
          · rw [if_neg (show ¬k ≠ TarType.dir from not_not_intro hk)]
            exact ih _
          · rw [if_pos hk]
            simp
      | reg =>
        cases hfs : fsLookup fs (joinClean root nm) with
        | none =>
          simp only [hfs, List.all_cons, Bool.and_eq_true]
          exact ⟨hesc, ih _⟩
        | some k =>
          simp only [hfs]
          by_cases hig : ig = true
          · rw [if_pos hig]
            exact ih _
          · rw [if_neg hig]
            by_cases hov : ov = true
            · rw [if_neg (show ¬¬ov = true from not_not_intro hov)]
              by_cases hk : k = TarType.reg
              · rw [if_neg (show ¬k ≠ TarType.reg from not_not_intro hk)]
                simp only [List.all_cons, Bool.and_eq_true]
                exact ⟨hesc, ih _⟩
              · rw [if_pos hk]
                simp
            · rw [if_pos hov]
              simp
      | other => simp
    · simp only [extractTar]
      rw [if_pos (show ¬root.isPrefixOf (joinClean root nm) = true from hesc)]
      simp

/-- An archive containing an entry whose cleaned output path escapes the
extraction root always makes `extractTar` fail. -/
theorem extractTar_escape_errors (root : List String) (ov ig : Bool)
    (entries : List TarEntry) :
    ∀ fs, entries.any
        (fun e => !(root.isPrefixOf (joinClean root e.name))) = true →
      exceptIsError (extractTar root ov ig entries fs).1 = true := by
  induction entries with
  | nil => intro fs h; simp at h
  | cons e rest ih =>
    intro fs hany
    rcases e with ⟨nm, tf⟩
    by_cases hesc : root.isPrefixOf (joinClean root nm) = true
    · have hrest : rest.any
          (fun e => !(root.isPrefixOf (joinClean root e.name))) = true := by
        simp only [List.any_cons, Bool.or_eq_true] at hany
        rcases hany with h1 | h2
        · rw [hesc] at h1; simp at h1
        · exact h2
      simp only [extractTar]
      rw [if_neg (show ¬¬root.isPrefixOf (joinClean root nm) = true from
        not_not_intro hesc)]
      cases tf with
      | dir =>
        cases hfs : fsLookup fs (joinClean root nm) with
        | none =>
          simp only [hfs]
          exact ih _ hrest
        | some k =>
          simp only [hfs]
          by_cases hk : k = TarType.dir
          · rw [if_neg (show ¬k ≠ TarType.dir from not_not_intro hk)]
            exact ih _ hrest
          · rw [if_pos hk]
            rfl
      | reg =>
        cases hfs : fsLookup fs (joinClean root nm) with
        | none =>
          simp only [hfs]
          exact ih _ hrest
        | some k =>
          simp only [hfs]
          by_cases hig : ig = true
          · rw [if_pos hig]
            exact ih _ hrest
          · rw [if_neg hig]
            by_cases hov : ov = true
            · rw [if_neg (show ¬¬ov = true from not_not_intro hov)]
              by_cases hk : k = TarType.reg
              · rw [if_neg (show ¬k ≠ TarType.reg from not_not_intro hk)]
                exact ih _ hrest
              · rw [if_pos hk]
                rfl
            · rw [if_pos hov]
              rfl
      | other => rfl
    · simp only [extractTar]
      rw [if_pos (show ¬root.isPrefixOf (joinClean root nm) = true from hesc)]
      rfl

/-- C7: every path that `extractTar` creates or truncates lies inside the
extraction root, and an archive containing an entry whose cleaned output
path escapes the root always fails with an error — in particular the
escaping path, not being inside the root, is never written. -/
theorem extractTar_no_escape (root : List String) (ov ig : Bool)
    (entries : List TarEntry) (fs : List (List String × TarType)) :
    ((extractTar root ov ig entries fs).2.all
        (fun w => root.isPrefixOf w)) = true
    ∧ (entries.any
          (fun e => !(root.isPrefixOf (joinClean root e.name))) = true →
        exceptIsError (extractTar root ov ig entries fs).1 = true) :=
  ⟨extractTar_writes_inside root ov ig entries fs,
    extractTar_escape_errors root ov ig entries fs⟩


/-- C7 witness: a crafted entry `../../x` under root `r` escapes and the
extraction fails. -/
theorem extractTar_no_escape_witness :
    exceptIsError
        (extractTar ["r"] false false
          [{ name := ["..", "..", "x"], typeflag := .reg }] []).1 = true :=
  (extractTar_no_escape ["r"] false false
      [{ name := ["..", "..", "x"], typeflag := .reg }] []).2 (by decide)

/-! ## Kitfile data model (package artifact; shapes as used by the
unpacker and described in the spec data model) -/

/-- `LayerInfo` from the data model: the digest anchoring a config entry
to its layer (diff-ID and size are unused by the embedded operations). -/
structure LayerInfo where
  digest : String
deriving DecidableEq, Repr

/-- A model part entry. -/
structure ModelPartA where
  name : String
  path : String
  license : Option String
  layerInfo : Option LayerInfo
deriving DecidableEq, Repr

/-- The model section. -/
structure ModelA where
  name : String
  path : String
  license : Option String
  parts : List ModelPartA
  layerInfo : Option LayerInfo
deriving DecidableEq, Repr

/-- A code entry (no name field). -/
structure CodeA where
  path : String
  license : Option String
  layerInfo : Option LayerInfo
deriving DecidableEq, Repr

/-- A prompt entry (no name or license field). -/
structure PromptA where
  path : String
  layerInfo : Option LayerInfo
deriving DecidableEq, Repr

/-- A dataset entry. -/
structure DataSetA where
  name : String
  path : String
  license : Option String
  layerInfo : Option LayerInfo
deriving DecidableEq, Repr

/-- A docs entry (no name or license field). -/
structure DocsA where
  path : String
  layerInfo : Option LayerInfo
deriving DecidableEq, Repr

/-- The Kitfile config object: the package-level license, the optional
model section and the entry lists. -/
structure KitFileA where
  packageLicense : Option String
  model : Option ModelA
  code : List CodeA
  prompts : List PromptA
  datasets : List DataSetA
  docs : List DocsA
deriving DecidableEq, Repr

/-! ## License aggregation (src/pkg/artifact/kitfile_test.go,
`collectLicenses` modelled from the spec) -/

/-- Every license string appearing in the Kitfile, in document order:
package, model, model parts, datasets, code (docs and prompts carry no
license field). -/
def allLicenses (kf : KitFileA) : List Str :=
  (kf.packageLicense.toList
    ++ (match kf.model with
        | none => []
        | some m => m.license.toList ++ m.parts.filterMap (fun p => p.license))
    ++ kf.datasets.filterMap (fun d => d.license)
    ++ kf.code.filterMap (fun c => c.license)).map String.toList

/-- Modelled from the spec: `collectLicenses` itself is not among the
provided repository files (only its test is); per the spec it returns the
de-duplicated union of every license string at any level, sorted
lexicographically (on character lists). -/
def collectLicenses (kf : KitFileA) : List Str :=
  List.insertionSort (· ≤ ·) (allLicenses kf).dedup

/-- C9: `collectLicenses` returns a lexicographically sorted, duplicate-free
list containing exactly the license strings appearing anywhere in the
Kitfile, and that output is the unique such list, hence identical across
runs for the same Kitfile. -/
theorem collectLicenses_sorted_dedup_union (kf : KitFileA) :
    List.Sorted (· ≤ ·) (collectLicenses kf)
    ∧ (collectLicenses kf).Nodup
    ∧ (∀ s, s ∈ collectLicenses kf ↔ s ∈ allLicenses kf)
    ∧ (∀ l, List.Sorted (· ≤ ·) l → l.Nodup →
        (∀ s, s ∈ l ↔ s ∈ allLicenses kf) → l = collectLicenses kf) := by
  have hperm : List.Perm (collectLicenses kf) (allLicenses kf).dedup :=
    List.perm_insertionSort _ _
  have hsorted : List.Sorted (· ≤ ·) (collectLicenses kf) :=
    List.sorted_insertionSort _ _
  have hnodup : (collectLicenses kf).Nodup :=
    hperm.symm.nodup (List.nodup_dedup _)
  have hmem : ∀ s, s ∈ collectLicenses kf ↔ s ∈ allLicenses kf := by
    intro s
    rw [hperm.mem_iff]
    exact List.mem_dedup
  refine ⟨hsorted, hnodup, hmem, ?_⟩
  intro l hls hln hlm
  refine List.eq_of_perm_of_sorted ?_ hls hsorted
  refine (List.perm_ext_iff_of_nodup hln hnodup).mpr ?_
  intro a
  rw [hlm a, hmem a]

/-! ## Layer-to-Kitfile-entry alignment (src/unnamed/part_001,
`unpackRecursive` layer loop; filter matching from src/unnamed/part_000) -/

/-- Modelled from the spec: the value of the layer-subtype annotation
marking prompt layers (`layerSubtype=prompt`); the constant itself is not
among the provided files. -/
def LayerSubtypePrompt : String := "prompt"

/-- A manifest layer descriptor: its media type, its digest, and the value
of its layer-subtype annotation entry (if present). -/
structure LayerDesc where
  mediaType : Str
  digest : String
  subtypeAnn : Option String
deriving DecidableEq, Repr

/-- `matchesFilters` from the source: some filter accepts the base type
and the field. -/
def matchesFilters (baseType field : Str) (filters : List FilterConf) : Bool :=
  filters.any (fun fc => fc.matchesEntry baseType field)

/-- `shouldUnpackLayer` on a `Model`: empty filter list unpacks everything;
otherwise match base type `model` against name or path. -/
def shouldUnpackModel (m : ModelA) (filters : List FilterConf) : Bool :=
  filters.isEmpty ||
    (matchesFilters "model".toList m.name.toList filters ||
      matchesFilters "model".toList m.path.toList filters)

/-- `shouldUnpackLayer` on a `ModelPart` (base type `model`, name or path). -/
def shouldUnpackPart (p : ModelPartA) (filters : List FilterConf) : Bool :=
  filters.isEmpty ||
    (matchesFilters "model".toList p.name.toList filters ||
      matchesFilters "model".toList p.path.toList filters)

/-- `shouldUnpackLayer` on a `Code` entry (path only). -/
def shouldUnpackCode (c : CodeA) (filters : List FilterConf) : Bool :=
  filters.isEmpty || matchesFilters "code".toList c.path.toList filters

/-- `shouldUnpackLayer` on a `Prompt` entry (path only). -/
def shouldUnpackPrompt (p : PromptA) (filters : List FilterConf) : Bool :=
  filters.isEmpty || matchesFilters "prompts".toList p.path.toList filters

/-- `shouldUnpackLayer` on a `DataSet` entry (name or path). -/
def shouldUnpackDataset (d : DataSetA) (filters : List FilterConf) : Bool :=
  filters.isEmpty ||
    (matchesFilters "datasets".toList d.name.toList filters ||
      matchesFilters "datasets".toList d.path.toList filters)

/-- `shouldUnpackLayer` on a `Docs` entry (path only). -/
def shouldUnpackDocs (d : DocsA) (filters : List FilterConf) : Bool :=
  filters.isEmpty || matchesFilters "docs".toList d.path.toList filters

/-- The per-type index kinds maintained by the layer loop (`modelPartIdx`,
`codeIdx`, `datasetIdx`, `docsIdx`, `promptIdx`); the `model` layer has no
index. -/
inductive LKind
  | part
  | code
  | prompt
  | dataset
  | docs
deriving DecidableEq, Repr

/-- The loop's per-type indices, in the source's declaration order. -/
structure Idxs where
  modelPart : Nat
  code : Nat
  dataset : Nat
  docs : Nat
  prompt : Nat
deriving DecidableEq, Repr

/-- Project the index of a kind. -/
def idxOf (st : Idxs) : LKind → Nat
  | .part => st.modelPart
  | .code => st.code
  | .prompt => st.prompt
  | .dataset => st.dataset
  | .docs => st.docs

/-- Advance the index of a kind by one. -/
def bump (st : Idxs) : LKind → Idxs
  | .part => { st with modelPart := st.modelPart + 1 }
  | .code => { st with code := st.code + 1 }
  | .prompt => { st with prompt := st.prompt + 1 }
  | .dataset => { st with dataset := st.dataset + 1 }
  | .docs => { st with docs := st.docs + 1 }

/-- Observable handling of one manifest layer: skipped with a warning
(unparseable media type), skipped (config layer), the model layer filtered
out or fetched, a typed entry filtered out (index advanced, nothing
fetched) or fetched at an index, or the unreachable unknown-base
fall-through. -/
inductive UAction
  | skippedUnparseable
  | skippedConfig
  | filteredModel
  | fetchedModel (path : String)
  | filtered (k : LKind) (idx : Nat)
  | fetched (k : LKind) (idx : Nat) (path : String)
  | fetchedRaw
deriving DecidableEq, Repr

/-- Errors of the layer loop: a Go panic from a missing config entry
(index out of range / nil model), the config-manifest digest mismatch, and
the `VerifySubpath` failure for entries without layer info. -/
inductive LayerErr
  | missingEntry
  | digestMismatch
  | pathError
deriving DecidableEq, Repr

/-- The base type of a parsed media type (`MediaType.Base()`). -/
def mtBase : MediaTypeV → BaseType
  | .kit b _ => b
  | .modelpack b _ _ => b

/-- The uniform view the loop takes of a typed Kitfile entry: its filter
decision, its layer info and its path. -/
def viewsOf (cfg : KitFileA) (filters : List FilterConf) :
    LKind → List (Bool × Option LayerInfo × String)
  | .part =>
    (match cfg.model with
      | none => []
      | some m => m.parts).map
      (fun p => (shouldUnpackPart p filters, p.layerInfo, p.path))
  | .code => cfg.code.map (fun c => (shouldUnpackCode c filters, c.layerInfo, c.path))
  | .prompt => cfg.prompts.map (fun p => (shouldUnpackPrompt p filters, p.layerInfo, p.path))
  | .dataset => cfg.datasets.map (fun d => (shouldUnpackDataset d filters, d.layerInfo, d.path))
  | .docs => cfg.docs.map (fun d => (shouldUnpackDocs d filters, d.layerInfo, d.path))

/-- The common tail of the loop body after an entry is selected for
unpacking: with layer info the digests must agree; without it the path is
verified against the unpack directory. -/
def finishLayer (verify : String → Bool) (info : Option LayerInfo)
    (path : String) (ldigest : String) (st : Idxs) (act : UAction) :
    Except LayerErr (Idxs × UAction) :=
  match info with
  | some li =>
    if li.digest ≠ ldigest then .error .digestMismatch else .ok (st, act)
  | none => if verify path then .ok (st, act) else .error .pathError

/-- One typed branch of the loop body, common to the model-part, code,
prompt, dataset and docs cases of the source: read the entry at the
current index of that type (a missing entry is the Go index-out-of-range
panic), advance the index, and either skip (filtered out, nothing
fetched) or check and fetch. -/
def consumeAt (verify : String → Bool) (cfg : KitFileA)
    (filters : List FilterConf) (st : Idxs) (l : LayerDesc) (k : LKind) :
    Except LayerErr (Idxs × UAction) :=
  match (viewsOf cfg filters k).get? (idxOf st k) with
  | none => .error .missingEntry
  | some (should, info, path) =>
    if ¬ should then .ok (bump st k, .filtered k (idxOf st k))
    else finishLayer verify info path l.digest (bump st k)
      (.fetched k (idxOf st k) path)

/-- The body of the layer loop of `unpackRecursive` for one manifest
layer: an unparseable media type logs a warning and skips the layer
(indices untouched); a config layer is skipped; the model layer consults
`config.Model` (nil is the Go panic) and the filters; the typed branches
go through `consumeAt`, a code-type layer with the prompt subtype
annotation consuming a prompt entry instead of a code entry; the
unknown-base fall-through mirrors the source's missing `continue`. -/
def processLayer (verify : String → Bool) (cfg : KitFileA)
    (filters : List FilterConf) (st : Idxs) (l : LayerDesc) :
    Except LayerErr (Idxs × UAction) :=
  match ParseMediaType l.mediaType with
  | none => .ok (st, .skippedUnparseable)
  | some mt =>
    match mtBase mt with
    | .config => .ok (st, .skippedConfig)
    | .model =>
      match cfg.model with
      | none => .error .missingEntry
      | some m =>
        if ¬ shouldUnpackModel m filters then .ok (st, .filteredModel)
        else finishLayer verify m.layerInfo m.path l.digest st
          (.fetchedModel m.path)
    | .modelpart => consumeAt verify cfg filters st l .part
    | .code =>
      if l.subtypeAnn = some LayerSubtypePrompt then
        consumeAt verify cfg filters st l .prompt
      else
        consumeAt verify cfg filters st l .code
    | .dataset => consumeAt verify cfg filters st l .dataset
    | .docs => consumeAt verify cfg filters st l .docs
    | .unknown => finishLayer verify none "" l.digest st .fetchedRaw

/-- The layer loop: manifest layers are consumed in manifest order,
threading the per-type indices; the first error aborts. -/
def processLayers (verify : String → Bool) (cfg : KitFileA)
    (filters : List FilterConf) (st : Idxs) :
    List LayerDesc → Except LayerErr (Idxs × List UAction)
  | [] => .ok (st, [])
  | l :: rest =>
    match processLayer verify cfg filters st l with
    | .error e => .error e
    | .ok (st1, a) =>
      match processLayers verify cfg filters st1 rest with
      | .error e => .error e
      | .ok (st2, acts) => .ok (st2, a :: acts)

/-- The index kind a layer consumes, determined by its media type and its
subtype annotation alone (independently of the Kitfile and filters):
model-part, dataset and docs layers consume their own kind, and code-type
layers consume a prompt entry exactly when they carry the prompt subtype
annotation. -/
def layerKindOf (l : LayerDesc) : Option LKind :=
  match ParseMediaType l.mediaType with
  | none => none
  | some mt =>
    match mtBase mt with
    | .modelpart => some .part
    | .code =>
      if l.subtypeAnn = some LayerSubtypePrompt then some .prompt
      else some .code
    | .dataset => some .dataset
    | .docs => some .docs
    | _ => none

/-- Number of layers of a kind in a manifest prefix. -/
def cntK (k : LKind) (ls : List LayerDesc) : Nat :=
  (ls.filter (fun l => layerKindOf l = some k)).length

/-- The entry consumption recorded by an action: the kind and entry index,
whether the entry was fetched or only skipped past by the filter. -/
def actionConsumes : UAction → Option (LKind × Nat)
  | .filtered k i => some (k, i)
  | .fetched k i _ => some (k, i)
  | _ => none

theorem idxOf_bump (st : Idxs) (k j : LKind) :
    idxOf (bump st k) j = idxOf st j + (if j = k then 1 else 0) := by
  cases k <;> cases j <;> simp [bump, idxOf]

theorem consumeAt_ok {verify : String → Bool} {cfg : KitFileA}
    {filters : List FilterConf} {st : Idxs} {l : LayerDesc} {k : LKind}
    {st1 : Idxs} {a : UAction}
    (h : consumeAt verify cfg filters st l k = Except.ok (st1, a)) :
    st1 = bump st k ∧ actionConsumes a = some (k, idxOf st k) := by
  unfold consumeAt finishLayer at h
  repeat' split at h
  all_goals first
    | exact Except.noConfusion h
    | (simp only [Except.ok.injEq, Prod.mk.injEq] at h
       exact ⟨h.1.symm, by rw [← h.2]; rfl⟩)

theorem processLayer_ok {verify : String → Bool} {cfg : KitFileA}
    {filters : List FilterConf} {st : Idxs} {l : LayerDesc} {st1 : Idxs}
    {a : UAction}
    (h : processLayer verify cfg filters st l = Except.ok (st1, a)) :
    (∀ k, idxOf st1 k =
      idxOf st k + (if layerKindOf l = some k then 1 else 0))
    ∧ (∀ k, layerKindOf l = some k →
        actionConsumes a = some (k, idxOf st k)) := by
  rcases hp : ParseMediaType l.mediaType with _ | mt
  · simp only [processLayer, hp, Except.ok.injEq, Prod.mk.injEq] at h
    refine ⟨?_, ?_⟩
    · intro k
      simp [layerKindOf, hp, ← h.1]
    · intro k hk
      simp [layerKindOf, hp] at hk
  · simp only [processLayer, hp] at h
    cases hb : mtBase mt with
    | config =>
      simp only [hb] at h
      simp only [Except.ok.injEq, Prod.mk.injEq] at h
      refine ⟨?_, ?_⟩
      · intro k
        simp [layerKindOf, hp, hb, ← h.1]
      · intro k hk
        simp [layerKindOf, hp, hb] at hk
    | unknown =>
      simp only [hb] at h
      simp only [finishLayer] at h
      split at h
      · simp only [Except.ok.injEq, Prod.mk.injEq] at h
        refine ⟨?_, ?_⟩
        · intro k
          simp [layerKindOf, hp, hb, ← h.1]
        · intro k hk
          simp [layerKindOf, hp, hb] at hk
      · exact Except.noConfusion h
    | model =>
      simp only [hb] at h
      rcases hm : cfg.model with _ | m
      · rw [hm] at h
        exact Except.noConfusion h
      · simp only [hm] at h
        have hkind : layerKindOf l = none := by simp [layerKindOf, hp, hb]
        split at h
        · simp only [Except.ok.injEq, Prod.mk.injEq] at h
          refine ⟨?_, ?_⟩
          · intro k
            simp [hkind, ← h.1]
          · intro k hk
            rw [hkind] at hk
            exact absurd hk (by simp)
        · unfold finishLayer at h
          repeat' split at h
          all_goals first
            | exact Except.noConfusion h
            | (simp only [Except.ok.injEq, Prod.mk.injEq] at h
               refine ⟨?_, ?_⟩
               · intro k
                 simp [hkind, ← h.1]
               · intro k hk
                 rw [hkind] at hk
                 exact absurd hk (by simp))
    | modelpart =>
      simp only [hb] at h
      obtain ⟨hst, hact⟩ := consumeAt_ok h
      have hkind : layerKindOf l = some .part := by simp [layerKindOf, hp, hb]
      refine ⟨?_, ?_⟩
      · intro k
        rw [hst, idxOf_bump, hkind]
        cases k <;> simp
      · intro k hk
        rw [hkind] at hk
        simp only [Option.some.injEq] at hk
        rw [← hk]
        exact hact
    | code =>
      simp only [hb] at h
      by_cases hann : l.subtypeAnn = some LayerSubtypePrompt
      · rw [if_pos hann] at h
        obtain ⟨hst, hact⟩ := consumeAt_ok h
        have hkind : layerKindOf l = some .prompt := by
          simp [layerKindOf, hp, hb, hann]
        refine ⟨?_, ?_⟩
        · intro k
          rw [hst, idxOf_bump, hkind]
          cases k <;> simp
        · intro k hk
          rw [hkind] at hk
          simp only [Option.some.injEq] at hk
          rw [← hk]
          exact hact
      · rw [if_neg hann] at h
        obtain ⟨hst, hact⟩ := consumeAt_ok h
        have hkind : layerKindOf l = some .code := by
          simp [layerKindOf, hp, hb, hann]
        refine ⟨?_, ?_⟩
        · intro k
          rw [hst, idxOf_bump, hkind]
          cases k <;> simp
        · intro k hk
          rw [hkind] at hk
          simp only [Option.some.injEq] at hk
          rw [← hk]
          exact hact
    | dataset =>
      simp only [hb] at h
      obtain ⟨hst, hact⟩ := consumeAt_ok h
      have hkind : layerKindOf l = some .dataset := by simp [layerKindOf, hp, hb]
      refine ⟨?_, ?_⟩
      · intro k
        rw [hst, idxOf_bump, hkind]
        cases k <;> simp
      · intro k hk
        rw [hkind] at hk
        simp only [Option.some.injEq] at hk
        rw [← hk]
        exact hact
    | docs =>
      simp only [hb] at h
      obtain ⟨hst, hact⟩ := consumeAt_ok h
      have hkind : layerKindOf l = some .docs := by simp [layerKindOf, hp, hb]
      refine ⟨?_, ?_⟩
      · intro k
        rw [hst, idxOf_bump, hkind]
        cases k <;> simp
      · intro k hk
        rw [hkind] at hk
        simp only [Option.some.injEq] at hk
        rw [← hk]
        exact hact

theorem cntK_cons (k : LKind) (l : LayerDesc) (rest : List LayerDesc) :
    cntK k (l :: rest) =
      (if layerKindOf l = some k then 1 else 0) + cntK k rest := by
  by_cases hk : layerKindOf l = some k
  · simp [cntK, hk, Nat.add_comm]
  · simp [cntK, hk]

theorem idxOf_zero (k : LKind) :
    idxOf { modelPart := 0, code := 0, dataset := 0, docs := 0, prompt := 0 } k = 0 := by
  cases k <;> rfl

theorem processLayers_spec (verify : String → Bool) (cfg : KitFileA)
    (filters : List FilterConf) :
    ∀ (layers : List LayerDesc) (st0 st : Idxs) (acts : List UAction),
      processLayers verify cfg filters st0 layers = Except.ok (st, acts) →
      (∀ k, idxOf st k = idxOf st0 k + cntK k layers)
      ∧ acts.length = layers.length
      ∧ (∀ i (hi : i < layers.length) (k : LKind),
          layerKindOf (layers.get ⟨i, hi⟩) = some k →
          ∃ ha : i < acts.length,
            actionConsumes (acts.get ⟨i, ha⟩) =
              some (k, idxOf st0 k + cntK k (layers.take i))) := by
  intro layers
  induction layers with
  | nil =>
    intro st0 st acts h
    simp only [processLayers, Except.ok.injEq, Prod.mk.injEq] at h
    refine ⟨?_, ?_, ?_⟩
    · intro k
      simp [cntK, ← h.1]
    · simp [← h.2]
    · intro i hi
      simp at hi
  | cons l rest ih =>
    intro st0 st acts h
    simp only [processLayers] at h
    rcases h1 : processLayer verify cfg filters st0 l with e | ⟨st1, a⟩
    · rw [h1] at h
      exact Except.noConfusion h
    · simp only [h1] at h
      rcases h2 : processLayers verify cfg filters st1 rest with e | ⟨st2, acts2⟩
      · rw [h2] at h
        exact Except.noConfusion h
      · simp only [h2, Except.ok.injEq, Prod.mk.injEq] at h
        obtain ⟨hst, hacts⟩ := h
        obtain ⟨hidx1, hact1⟩ := processLayer_ok h1
        obtain ⟨hidxR, hlenR, halignR⟩ := ih st1 st2 acts2 h2
        subst hst
        subst hacts
        refine ⟨?_, ?_, ?_⟩
        · intro k
          have e1 := hidxR k
          have e2 := hidx1 k
          rw [cntK_cons]
          omega
        · simp [hlenR]
        · intro i hi k hk
          cases i with
          | zero =>
            refine ⟨by simp, ?_⟩
            have hk0 : layerKindOf l = some k := hk
            have hget : (a :: acts2).get ⟨0, by simp⟩ = a := rfl
            rw [hget, hact1 k hk0]
            simp [cntK]
          | succ j =>
            have hj : j < rest.length := by
              simpa using hi
            have hkj : layerKindOf (rest.get ⟨j, hj⟩) = some k := by
              simpa using hk
            obtain ⟨haj, hval⟩ := halignR j hj k hkj
            have ha2 : j + 1 < (a :: acts2).length := by
              simpa using haj
            refine ⟨ha2, ?_⟩
            have hget : (a :: acts2).get ⟨j + 1, ha2⟩ = acts2.get ⟨j, haj⟩ := rfl
            rw [hget, hval]
            have e2 := hidx1 k
            have harg : idxOf st1 k + cntK k (rest.take j) =
                idxOf st0 k + cntK k ((l :: rest).take (j + 1)) := by
              rw [List.take_succ_cons, cntK_cons]
              omega
            rw [harg]

/-- C5: in a successful unpack of a manifest against a Kitfile, layers are
consumed in manifest order; each per-type index ends equal to the number
of layers of that type — it advances exactly once per layer of that type,
also when the entry is rejected by the filters (the action is then
`filtered`, advancing the index without a fetch); and the i-th layer of
each base type consumes the i-th Kitfile entry of that type, a code-type
layer with the prompt subtype annotation consuming a prompt entry rather
than a code entry (its recorded kind is `prompt`). -/
theorem unpack_layer_alignment (verify : String → Bool) (cfg : KitFileA)
    (filters : List FilterConf) (layers : List LayerDesc) (st : Idxs)
    (acts : List UAction)
    (h : processLayers verify cfg filters
      { modelPart := 0, code := 0, dataset := 0, docs := 0, prompt := 0 }
      layers = Except.ok (st, acts)) :
    (st.modelPart = cntK .part layers ∧ st.code = cntK .code layers
      ∧ st.prompt = cntK .prompt layers ∧ st.dataset = cntK .dataset layers
      ∧ st.docs = cntK .docs layers)
    ∧ acts.length = layers.length
    ∧ (∀ i (hi : i < layers.length) (k : LKind),
        layerKindOf (layers.get ⟨i, hi⟩) = some k →
        ∃ ha : i < acts.length,
          actionConsumes (acts.get ⟨i, ha⟩) =
            some (k, cntK k (layers.take i))) := by
  obtain ⟨hidx, hlen, halign⟩ :=
    processLayers_spec verify cfg filters layers
      { modelPart := 0, code := 0, dataset := 0, docs := 0, prompt := 0 }
      st acts h
  refine ⟨⟨?_, ?_, ?_, ?_, ?_⟩, hlen, ?_⟩
  · have := hidx .part
    rw [idxOf_zero] at this
    simpa [idxOf] using this
  · have := hidx .code
    rw [idxOf_zero] at this
    simpa [idxOf] using this
  · have := hidx .prompt
    rw [idxOf_zero] at this
    simpa [idxOf] using this
  · have := hidx .dataset
    rw [idxOf_zero] at this
    simpa [idxOf] using this
  · have := hidx .docs
    rw [idxOf_zero] at this
    simpa [idxOf] using this
  · intro i hi k hk
    obtain ⟨ha, hv⟩ := halign i hi k hk
    rw [idxOf_zero, Nat.zero_add] at hv
    exact ⟨ha, hv⟩

/-- A demonstration model part entry. -/
def demoPart : ModelPartA :=
  { name := "p1", path := "pp1", license := none, layerInfo := none }

/-- A demonstration model section with one part. -/
def demoModel : ModelA :=
  { name := "m", path := "mp", license := none, parts := [demoPart],
    layerInfo := none }

/-- A demonstration Kitfile with one part, one code entry, one prompt and
one dataset. -/
def demoCfg : KitFileA :=
  { packageLicense := none,
    model := some demoModel,
    code := [{ path := "cp1", license := none, layerInfo := none }],
    prompts := [{ path := "qp1", layerInfo := none }],
    datasets := [{ name := "d1", path := "dp1", license := none, layerInfo := none }],
    docs := [] }

/-- A demonstration manifest: a model part, a prompt-annotated code layer,
a plain code layer and a dataset layer, in ModelPack media types. -/
def demoLayers : List LayerDesc :=
  [{ mediaType := "application/vnd.cncf.model.modelpart.v1.raw".toList,
     digest := "", subtypeAnn := none },
   { mediaType := "application/vnd.cncf.model.code.v1.tar".toList,
     digest := "", subtypeAnn := some "prompt" },
   { mediaType := "application/vnd.cncf.model.code.v1.tar".toList,
     digest := "", subtypeAnn := none },
   { mediaType := "application/vnd.cncf.model.dataset.v1.tar+gzip".toList,
     digest := "", subtypeAnn := none }]

/-- The actions of unpacking `demoLayers` against `demoCfg`. -/
def demoActs : List UAction :=
  [.fetched .part 0 "pp1", .fetched .prompt 0 "qp1", .fetched .code 0 "cp1",
   .fetched .dataset 0 "dp1"]

/-- The final indices of unpacking `demoLayers` against `demoCfg`. -/
def demoSt : Idxs :=
  { modelPart := 1, code := 1, dataset := 1, docs := 0, prompt := 1 }

/-- C5 witness: on the concrete manifest, every per-type index ends at the
number of layers of that type. -/
theorem unpack_layer_alignment_witness :
    demoSt.modelPart = cntK .part demoLayers
      ∧ demoSt.code = cntK .code demoLayers
      ∧ demoSt.prompt = cntK .prompt demoLayers
      ∧ demoSt.dataset = cntK .dataset demoLayers
      ∧ demoSt.docs = cntK .docs demoLayers :=
  (unpack_layer_alignment (fun _ => true) demoCfg [] demoLayers demoSt
    demoActs rfl).1

/-- C10: a manifest layer whose media-type string fails to parse is
skipped: the loop returns no error for it, continues with the remaining
layers from an unchanged index state, and records only the
skipped-with-warning action for that layer. -/
theorem unparseable_layer_skipped (verify : String → Bool) (cfg : KitFileA)
    (filters : List FilterConf) (st : Idxs) (l : LayerDesc)
    (rest : List LayerDesc) (h : ParseMediaType l.mediaType = none) :
    processLayers verify cfg filters st (l :: rest) =
      (processLayers verify cfg filters st rest).map
        (fun p => (p.1, UAction.skippedUnparseable :: p.2)) := by
  simp only [processLayers, processLayer, h]
  rcases h2 : processLayers verify cfg filters st rest with e | ⟨st2, acts2⟩
  · simp [Except.map]
  · simp [Except.map]

/-- C10 witness: a layer with the unparseable media type `unknown/type` is
skipped and the rest of the manifest is processed from the same state. -/
theorem unparseable_layer_skipped_witness :
    processLayers (fun _ => true) demoCfg []
        { modelPart := 0, code := 0, dataset := 0, docs := 0, prompt := 0 }
        [{ mediaType := "unknown/type".toList, digest := "", subtypeAnn := none }] =
      (processLayers (fun _ => true) demoCfg []
          { modelPart := 0, code := 0, dataset := 0, docs := 0, prompt := 0 }
          []).map
        (fun p => (p.1, UAction.skippedUnparseable :: p.2)) :=
  unparseable_layer_skipped (fun _ => true) demoCfg []
    { modelPart := 0, code := 0, dataset := 0, docs := 0, prompt := 0 }
    { mediaType := "unknown/type".toList, digest := "", subtypeAnn := none }
    [] (by decide)

/-- A demonstration Kitfile with licenses at several levels, out of order
and with a duplicate. -/
def demoKFLicenses : KitFileA :=
  { packageLicense := some "license-g",
    model := none,
    code := [{ path := "code", license := some "license-b", layerInfo := none },
             { path := "code-extra", license := some "license-a", layerInfo := none }],
    prompts := [],
    datasets := [{ name := "", path := "dataset", license := some "license-c", layerInfo := none },
                 { name := "", path := "dataset-extra", license := some "license-c", layerInfo := none }],
    docs := [] }

/-- C9 witness: on the concrete Kitfile the aggregation is the sorted,
de-duplicated union, and the theorem yields its sortedness. -/
theorem collectLicenses_sorted_dedup_union_witness :
    collectLicenses demoKFLicenses =
        ["license-a".toList, "license-b".toList, "license-c".toList,
          "license-g".toList]
      ∧ List.Sorted (· ≤ ·) (collectLicenses demoKFLicenses) :=
  ⟨by decide, (collectLicenses_sorted_dedup_union demoKFLicenses).1⟩

end KitOps
